import Mathlib

/-!
# Verification of the Overwatch `deploy` process-lifecycle subsystem

The repository ships the test suite of its `overwatch.base.deploy` module
(`src/tests/base/test_deploy.py`); the module itself is not part of the
excerpt.  Following the specification (`spec.md` §3–§8), the definitions
below model the deploy module's data model and operations.  Effectful
operations (subprocess queries, signal delivery, file writes) are modelled
by passing the observed external results explicitly and returning a record
of the effects performed.  Where the specification and the repository's
own test suite disagree, the test suite is taken as the authority and the
divergence is recorded in the theorems.
-/

/-- Errors surfaced by the deploy module, tagged by the Python exception
class that carries them. -/
inductive DeployError where
  | keyError (msg : String)
  | valueError (msg : String)
  | runtimeError (msg : String)
  | calledProcessError (returncode : Int)
deriving DecidableEq, Repr

/-- Result of a deploy-module operation: a value or a raised error. -/
inductive DResult (α : Type) where
  | ok (val : α)
  | error (e : DeployError)
deriving DecidableEq, Repr

/-- First value bound to key `k` in an association list (Python dict
lookup, reading insertion order). -/
def lookupAssoc {α : Type} (l : List (String × α)) (k : String) : Option α :=
  match l with
  | [] => none
  | p :: rest => if p.1 = k then some p.2 else lookupAssoc rest k

/-- `sub` occurs as a contiguous substring of `s`. -/
def strContains (s sub : String) : Prop := sub.data <:+: s.data

instance (s sub : String) : Decidable (strContains s sub) :=
  List.decidableInfix sub.data s.data

/-! ## Template resolution (`str.format`-style `{key}` substitution)

Modelled from the spec: `ProcessSpec.setup()` "renders `name` and
`description` by substituting `{key}` placeholders from `config`" (§4.2).
The scanner below walks the character list once; `mode = none` is literal
mode, `mode = some acc` means we are inside a `{...}` placeholder with the
key characters read so far in `acc` (reversed).  A placeholder whose key is
missing from `config`, or an unterminated placeholder, fails (Python
`KeyError` / `ValueError` from `str.format`). -/

/-- One-pass `{key}` substitution over a character list. -/
def formatGo (cfg : List (String × String)) :
    Option (List Char) → List Char → Option (List Char)
  | none, [] => some []
  | some _, [] => none
  | none, c :: rest =>
    if c = '{' then
      formatGo cfg (some []) rest
    else
      (formatGo cfg none rest).map (fun r => c :: r)
  | some acc, c :: rest =>
    if c = '}' then
      match lookupAssoc cfg (String.mk acc.reverse) with
      | none => none
      | some v => (formatGo cfg none rest).map (fun r => v.data ++ r)
    else
      formatGo cfg (some (c :: acc)) rest

/-- Modelled from the spec: `str.format`-style rendering of a whole string
against the `config` mapping (§4.2). -/
def formatStr (s : String) (cfg : List (String × String)) : Option String :=
  (formatGo cfg none s.data).map String.mk

/-- Render every element of an argument vector (§4.2: "renders each
argument in `args` the same way"). -/
def formatArgs (args : List String) (cfg : List (String × String)) :
    Option (List String) :=
  match args with
  | [] => some []
  | a :: rest =>
    match formatStr a cfg, formatArgs rest cfg with
    | some a', some rest' => some (a' :: rest')
    | _, _ => none

/-- Space-joining of an argument vector (`" ".join(args)`). -/
def joinSpace (l : List String) : String :=
  match l with
  | [] => ""
  | x :: xs => xs.foldl (fun a b => a ++ " " ++ b) x

/-! ## The `executable` process specification -/

/-- Modelled from the spec: the `ProcessSpec` data model (§3), realised in
the source as the `deploy.executable` class exercised by
`test_deploy.py`. -/
structure executable where
  name : String
  description : String
  args : List String
  config : List (String × String)
  processIdentifier : String
  supervisord : Bool
deriving DecidableEq, Repr

/-- Modelled from the spec: `ProcessSpec.setup()` (§4.2) — renders `name`,
`description` and each element of `args` from `config`; when
`processIdentifier` is blank it becomes the space-joined rendered `args`,
otherwise it is kept.  `config` itself is not mutated.  `none` models a
raised templating error (a referenced key missing from `config`). -/
def setup (e : executable) : Option executable :=
  match formatStr e.name e.config, formatStr e.description e.config,
      formatArgs e.args e.config with
  | some n, some d, some as =>
    some { name := n, description := d, args := as, config := e.config,
           processIdentifier :=
             if e.processIdentifier = "" then joinSpace as
             else e.processIdentifier,
           supervisord := e.supervisord }
  | _, _, _ => none

/-- The executable object built by the `setupBasicExecutable` fixture of
`test_deploy.py` (blank `processIdentifier`, direct mode). -/
def basicTestExecutable : executable :=
  { name := "{label}Executable",
    description := "Basic executable for {label}ing",
    args := ["execTest", "arg1", "arg2", "test{hello}"],
    config := [("hello", "world"), ("label", "test")],
    processIdentifier := "",
    supervisord := false }

/-! ## The executable registry -/

/-- The `ProcessSpec` subtypes a registry name can resolve to. -/
inductive ExecutableKind where
  | dataTransfer
  | processing
  | webApp
  | dqmReceiver
  | zodb
deriving DecidableEq, Repr

/-- Modelled from the spec: the process-wide executable registry (§3).
The spec's registry description names "dataTransfer", "processing",
"webApp" and "dqmReceiver" (as examples); the repository's test suite
additionally retrieves "zodb" (`test_deploy.py:50`), so the registry also
carries that entry. -/
def _available_executables : List (String × ExecutableKind) :=
  [("dataTransfer", ExecutableKind.dataTransfer),
   ("processing", ExecutableKind.processing),
   ("webApp", ExecutableKind.webApp),
   ("dqmReceiver", ExecutableKind.dqmReceiver),
   ("zodb", ExecutableKind.zodb)]

/-- Modelled from the spec: `retrieve(name) -> constructor` (§4.1) — a
pure lookup in the registry that raises a `KeyError` carrying the message
`"Executable <name> is invalid."` for an unregistered name. -/
def retrieveExecutable (name : String) : DResult ExecutableKind :=
  match lookupAssoc _available_executables name with
  | some c => DResult.ok c
  | none => DResult.error
      (DeployError.keyError ("Executable " ++ name ++ " is invalid."))

/-! ## Process discovery: `getProcessPID` -/

/-- Outcome of the external process-listing command
(`pgrep -f <processIdentifier>`): captured stdout on exit code 0, or the
`subprocess.CalledProcessError` return code on a non-zero exit. -/
inductive SubprocessResult where
  | output (stdout : String)
  | failed (returncode : Int)
deriving DecidableEq, Repr

/-- Split a character list at newline characters. -/
def splitLinesGo (acc : List Char) : List Char → List (List Char)
  | [] => [acc.reverse]
  | c :: rest =>
    if c = '\n' then acc.reverse :: splitLinesGo [] rest
    else splitLinesGo (c :: acc) rest

/-- Read a decimal digit string as a number (Python `int` on `pgrep`
output lines, which are always numeric). -/
def digitsToNat (l : List Char) : Nat :=
  l.foldl (fun n c => n * 10 + (c.toNat - '0'.toNat)) 0

/-- Parse the newline-delimited stdout of the listing command into the
list of PIDs, skipping empty lines. -/
def parsePids (s : String) : List Nat :=
  ((splitLinesGo [] s.data).filter (fun l => l ≠ [])).map digitsToNat

/-- Python `str` rendering of a PID list, e.g. `"[1234567]"`. -/
def pidListString (pids : List Nat) : String :=
  "[" ++ String.intercalate ", " (pids.map (fun p => toString p)) ++ "]"

/-- Modelled from the spec: `ProcessController.getProcessPID()` (§4.4,
§6) — exit code 1 from the listing command is a normal empty result, any
other `CalledProcessError` is re-raised unchanged, and on success the
stdout is parsed into PIDs.  The spec places the multiple-PID ambiguity
check "at the caller level", but the repository's test
(`test_deploy.py:141-157`) calls `getProcessPID` directly and expects the
`ValueError` from it, so the check lives inside `getProcessPID` here. -/
def getProcessPID (res : SubprocessResult) : DResult (List Nat) :=
  match res with
  | SubprocessResult.failed rc =>
    if rc = 1 then DResult.ok []
    else DResult.error (DeployError.calledProcessError rc)
  | SubprocessResult.output s =>
    let pids := parsePids s
    if pids.length > 1 then
      DResult.error (DeployError.valueError
        ("Multiple PIDs " ++ pidListString pids ++ " found for the process."))
    else DResult.ok pids

/-! ## Graceful termination: `killExistingProcess` -/

/-- POSIX signals the controller can deliver.  Only `SIGINT` is ever sent
(§4.5: no escalation to a forced kill). -/
inductive UnixSignal where
  | sigint
  | sigkill
deriving DecidableEq, Repr

/-- Observable outcome of `killExistingProcess`: the `os.kill` calls made,
in order, and the returned count or raised error. -/
structure KillOutcome where
  signalsSent : List (Nat × UnixSignal)
  result : DResult Nat
deriving DecidableEq, Repr

/-- Modelled from the spec: `ProcessController.killExistingProcess()`
(§4.5).  The two `getProcessPID()` reads are passed in as `initial` (the
PIDs found before signalling) and `after` (the re-check after
signalling).  An empty initial list is a no-op success; otherwise each
initial PID receives exactly one `SIGINT`, and if any initial PID is still
present in the re-check the operation raises a `RuntimeError` reporting
the surviving PIDs. -/
def killExistingProcess (initial after : List Nat) : KillOutcome :=
  if initial = [] then
    { signalsSent := [], result := DResult.ok 0 }
  else
    let survivors := initial.filter (fun p => after.contains p)
    { signalsSent := initial.map (fun p => (p, UnixSignal.sigint)),
      result :=
        if survivors = [] then DResult.ok initial.length
        else DResult.error (DeployError.runtimeError
          ("Requested to kill existing processes, but " ++
            ("found PIDs " ++ pidListString survivors ++
              " after killing the processes."))) }

/-! ## Process launch: `startProcessWithLog` -/

/-- File open modes used by the deploy module. -/
inductive FileMode where
  | write
  | append
deriving DecidableEq, Repr

/-- A `subprocess.Popen` call: the argument vector, the log file whose
handle stdout is redirected to, and whether stderr is merged into
stdout. -/
structure SpawnCall where
  args : List String
  stdoutLog : String
  stderrToStdout : Bool
deriving DecidableEq, Repr

/-- One `[program:<name>]` stanza written to the supervisor
configuration. -/
structure ProgramStanza where
  programName : String
  command : String
  logFile : String
deriving DecidableEq, Repr

/-- Observable outcome of `startProcessWithLog`: the files opened (path
and mode, in order), the spawned child process (also the returned handle;
`none` when no process is spawned and nothing is returned), and the
structured stanza writes performed on the supervisor configuration. -/
structure StartResult where
  opens : List (String × FileMode)
  spawned : Option SpawnCall
  stanzas : List ProgramStanza
deriving DecidableEq, Repr

/-- Modelled from the spec: `ProcessController.startProcessWithLog()`
(§4.6, §6).  Direct mode opens `"<name>.log"` for writing once and spawns
`args` with stdout and stderr redirected to it, returning the process
handle; supervisor mode opens `"supervisord.conf"` for appending once and
performs exactly one structured stanza write, returning no handle. -/
def startProcessWithLog (e : executable) : StartResult :=
  if e.supervisord then
    { opens := [("supervisord.conf", FileMode.append)],
      spawned := none,
      stanzas := [{ programName := e.name,
                    command := joinSpace e.args,
                    logFile := e.name ++ ".log" }] }
  else
    { opens := [(e.name ++ ".log", FileMode.write)],
      spawned := some { args := e.args,
                        stdoutLog := e.name ++ ".log",
                        stderrToStdout := true },
      stanzas := [] }

/-! ## Config merge (`overwatchExecutable.setup()` / `writeCustomConfig`) -/

/-- YAML values occurring in the persisted Overwatch configuration (the
test exercises booleans and a set of strings). -/
inductive YVal where
  | bool (b : Bool)
  | nat (n : Nat)
  | str (s : String)
  | strset (l : List String)
deriving DecidableEq, Repr

/-- Python `dict.update` on insertion-ordered mappings: keys already in
`base` keep their position and take the override's value, keys only in
`overrides` are appended in override order. -/
def updateMap (base overrides : List (String × YVal)) :
    List (String × YVal) :=
  base.map (fun p =>
    match lookupAssoc overrides p.1 with
    | some v => (p.1, v)
    | none => p) ++
  overrides.filter (fun q => (lookupAssoc base q.1).isNone)

/-- Modelled from the spec: the config-merge step invoked by
`overwatchExecutable.setup()` (§4.3) — parse the existing file into a
mapping (`none` models an absent file, read as the empty mapping), apply
`mapping.update(overrides)`, and write the result back, fully replacing
the file's previous content.  The returned mapping is the file's new
content. -/
def writeCustomConfig (existing : Option (List (String × YVal)))
    (overrides : List (String × YVal)) : List (String × YVal) :=
  updateMap (existing.getD []) overrides

/-! ## YAML loading with `!expandVars` -/

/-- Characters that may form a `$VARNAME` reference (shell identifier
characters, as recognised by `os.path.expandvars`). -/
def isIdentChar (c : Char) : Bool :=
  c.isAlphanum || c = '_'

/-- Resolve a finished variable name (`acc` holds its characters in
reverse): a bare `$` stays itself, a known variable becomes its
environment value, an unknown one is left verbatim. -/
def finishVar (env : List (String × String)) (acc : List Char) :
    List Char :=
  match acc with
  | [] => ['$']
  | _ :: _ =>
    match lookupAssoc env (String.mk acc.reverse) with
    | some v => v.data
    | none => '$' :: acc.reverse

/-- One-pass `$VARNAME` expansion over a character list; `mode = some acc`
means we are reading a variable name (reversed in `acc`) after a `$`. -/
def expandGo (env : List (String × String)) :
    Option (List Char) → List Char → List Char
  | none, [] => []
  | some acc, [] => finishVar env acc
  | none, c :: rest =>
    if c = '$' then expandGo env (some []) rest
    else c :: expandGo env none rest
  | some acc, c :: rest =>
    if isIdentChar c then expandGo env (some (c :: acc)) rest
    else if c = '$' then finishVar env acc ++ expandGo env (some []) rest
    else finishVar env acc ++ (c :: expandGo env none rest)

/-- Modelled from the spec: the `$VARNAME` expansion performed by the
`!expandVars` YAML constructor against the process environment `env`
(§6; `os.path.expandvars` semantics on the `$NAME` form). -/
def expandVars (env : List (String × String)) (s : String) : String :=
  String.mk (expandGo env none s.data)

/-- A YAML scalar node as seen by the deploy module's loader: either an
untagged value or a scalar tagged `!expandVars`. -/
inductive YamlScalar where
  | plain (v : YVal)
  | expandVarsTag (s : String)
deriving DecidableEq, Repr

/-- Modelled from the spec: loading one scalar with the deploy module's
safe loader extended with the `!expandVars` constructor (§6): tagged
scalars have their `$VARNAME` references expanded from `env`, untagged
values are taken verbatim. -/
def loadScalar (env : List (String × String)) (n : YamlScalar) : YVal :=
  match n with
  | YamlScalar.plain v => v
  | YamlScalar.expandVarsTag s => YVal.str (expandVars env s)

/-- Dumping a value to YAML produces an untagged scalar. -/
def dumpScalar (v : YVal) : YamlScalar :=
  YamlScalar.plain v

/-! ## Lemmas about template resolution -/

/-- Unfolding step: a literal character passes through. -/
theorem formatGo_cons_lit (cfg : List (String × String)) (c : Char)
    (rest : List Char) (hc : ¬ c = '{') :
    formatGo cfg none (c :: rest) =
      (formatGo cfg none rest).map (fun r => c :: r) := by
  simp [formatGo, hc]

/-- Unfolding step: `{` enters placeholder mode. -/
theorem formatGo_cons_open (cfg : List (String × String))
    (rest : List Char) :
    formatGo cfg none ('{' :: rest) = formatGo cfg (some []) rest := by
  simp [formatGo]

/-- Unfolding step: a non-`}` character extends the pending key. -/
theorem formatGo_key_cons (cfg : List (String × String)) (acc : List Char)
    (c : Char) (rest : List Char) (hc : ¬ c = '}') :
    formatGo cfg (some acc) (c :: rest) =
      formatGo cfg (some (c :: acc)) rest := by
  simp [formatGo, hc]

/-- Unfolding step: `}` closes the pending key and resolves it. -/
theorem formatGo_key_close (cfg : List (String × String)) (acc : List Char)
    (rest : List Char) :
    formatGo cfg (some acc) ('}' :: rest) =
      match lookupAssoc cfg (String.mk acc.reverse) with
      | none => none
      | some v => (formatGo cfg none rest).map (fun r => v.data ++ r) := by
  simp [formatGo]

/-- Literal-mode formatting is the identity on brace-free text. -/
theorem formatGo_no_brace (cfg : List (String × String)) :
    ∀ l : List Char, '{' ∉ l → formatGo cfg none l = some l := by
  intro l h
  induction l with
  | nil => rfl
  | cons c rest ih =>
    have hc : ¬ c = '{' := fun hc => h (hc ▸ List.mem_cons_self c rest)
    have hrest : '{' ∉ rest := fun hm => h (List.mem_cons_of_mem c hm)
    rw [formatGo_cons_lit cfg c rest hc, ih hrest]
    rfl

/-- A brace-free prefix passes through literal-mode formatting. -/
theorem formatGo_append_left (cfg : List (String × String))
    (pre l : List Char) (h : '{' ∉ pre) :
    formatGo cfg none (pre ++ l) =
      (formatGo cfg none l).map (fun r => pre ++ r) := by
  induction pre with
  | nil => simp
  | cons c pre' ih =>
    have hc : ¬ c = '{' := fun hc => h (hc ▸ List.mem_cons_self c pre')
    have hpre : '{' ∉ pre' := fun hm => h (List.mem_cons_of_mem c hm)
    rw [List.cons_append, formatGo_cons_lit cfg c _ hc, ih hpre,
      Option.map_map]
    rfl

/-- Reading a `}`-free key inside a placeholder resolves it against
`config`. -/
theorem formatGo_key (cfg : List (String × String)) (k post : List Char)
    (h : '}' ∉ k) :
    ∀ acc : List Char,
      formatGo cfg (some acc) (k ++ '}' :: post) =
        match lookupAssoc cfg (String.mk (acc.reverse ++ k)) with
        | none => none
        | some v => (formatGo cfg none post).map (fun r => v.data ++ r) := by
  induction k with
  | nil =>
    intro acc
    rw [List.nil_append, formatGo_key_close, List.append_nil]
  | cons c k' ih =>
    intro acc
    have hc : ¬ c = '}' := fun hc => h (hc ▸ List.mem_cons_self c k')
    have hk : '}' ∉ k' := fun hm => h (List.mem_cons_of_mem c hm)
    rw [List.cons_append, formatGo_key_cons cfg acc c _ hc, ih hk (c :: acc),
      List.reverse_cons, List.append_assoc]
    rfl

/-- `str.format`-style substitution: a `{key}` placeholder after brace-free
text is replaced by the configured value. -/
theorem formatGo_subst (cfg : List (String × String))
    (pre k post : List Char) (v : String)
    (hpre : '{' ∉ pre) (hk : '}' ∉ k)
    (hv : lookupAssoc cfg (String.mk k) = some v) :
    formatGo cfg none (pre ++ '{' :: (k ++ '}' :: post)) =
      (formatGo cfg none post).map (fun r => pre ++ (v.data ++ r)) := by
  rw [formatGo_append_left cfg pre _ hpre, formatGo_cons_open,
    formatGo_key cfg k post hk []]
  simp only [List.reverse_nil, List.nil_append, hv, Option.map_map]
  rfl

/-- Whole-string formatting is the identity on brace-free strings. -/
theorem formatStr_no_brace (s : String) (cfg : List (String × String))
    (h : '{' ∉ s.data) : formatStr s cfg = some s := by
  simp [formatStr, formatGo_no_brace cfg s.data h]

/-- Argument-vector formatting is the identity on brace-free vectors. -/
theorem formatArgs_no_brace (args : List String)
    (cfg : List (String × String)) (h : ∀ a ∈ args, '{' ∉ a.data) :
    formatArgs args cfg = some args := by
  induction args with
  | nil => rfl
  | cons a rest ih =>
    have ha := h a (List.mem_cons_self a rest)
    have hrest := ih (fun b hb => h b (List.mem_cons_of_mem a hb))
    simp [formatArgs, formatStr_no_brace a cfg ha, hrest]

/-- C4: for every `ProcessSpec` whose config supplies every key referenced
in its templated `name`, `description` and `args`, `setup()` replaces each
`{key}` placeholder with the configured value (`str.format`-style
semantics) in `name`, `description` and every element of `args`, leaves
`config` unchanged, and sets `processIdentifier` to the space-joined
rendered `args` exactly when it was blank, keeping a non-blank
`processIdentifier` as supplied. -/
theorem setup_resolves_templates :
    (∀ (cfg : List (String × String)) (pre key post : List Char)
        (v : String), '{' ∉ pre → '}' ∉ key →
        lookupAssoc cfg (String.mk key) = some v →
        formatGo cfg none (pre ++ '{' :: (key ++ '}' :: post)) =
          (formatGo cfg none post).map (fun r => pre ++ (v.data ++ r))) ∧
    (∀ (e : executable) (n d : String) (as : List String),
        formatStr e.name e.config = some n →
        formatStr e.description e.config = some d →
        formatArgs e.args e.config = some as →
        setup e = some { name := n, description := d, args := as,
                         config := e.config,
                         processIdentifier :=
                           if e.processIdentifier = "" then joinSpace as
                           else e.processIdentifier,
                         supervisord := e.supervisord }) := by
  constructor
  · exact formatGo_subst
  · intro e n d as h1 h2 h3
    simp [setup, h1, h2, h3]

/-- Witness for C4: the substitution semantics on `"{label}"` and the
`setupBasicExecutable` fixture of `test_deploy.py`, whose rendered fields
and defaulted `processIdentifier` match `testSetupExecutable`. -/
theorem setup_resolves_templates_witness :
    formatGo [("label", "test")] none ("{label}".data) =
      some ("test".data) ∧
    setup basicTestExecutable =
      some { name := "testExecutable",
             description := "Basic executable for testing",
             args := ["execTest", "arg1", "arg2", "testworld"],
             config := [("hello", "world"), ("label", "test")],
             processIdentifier := "execTest arg1 arg2 testworld",
             supervisord := false } := by
  constructor
  · have h := setup_resolves_templates.1 [("label", "test")] []
      ("label".data) [] "test" (by decide) (by decide) (by decide)
    have e : "{label}".data = [] ++ '{' :: ("label".data ++ '}' :: []) := by
      decide
    rw [e, h]
    decide
  · have h := setup_resolves_templates.2 basicTestExecutable
      "testExecutable" "Basic executable for testing"
      ["execTest", "arg1", "arg2", "testworld"]
      (by decide) (by decide) (by decide)
    rw [h]
    decide

/-- C8: a second `setup()` on an already-set-up `ProcessSpec` whose
rendered fields are placeholder-free reproduces exactly the same `name`,
`description`, `args` and `processIdentifier`, and neither call changes
`config`. -/
theorem setup_second_call (e e' : executable)
    (h : setup e = some e')
    (hn : '{' ∉ e'.name.data) (hd : '{' ∉ e'.description.data)
    (ha : ∀ a ∈ e'.args, '{' ∉ a.data) :
    setup e' = some e' ∧ e'.config = e.config := by
  unfold setup at h
  cases h1 : formatStr e.name e.config with
  | none => rw [h1] at h; simp at h
  | some n =>
    cases h2 : formatStr e.description e.config with
    | none => rw [h1, h2] at h; simp at h
    | some d =>
      cases h3 : formatArgs e.args e.config with
      | none => rw [h1, h2, h3] at h; simp at h
      | some as =>
        rw [h1, h2, h3] at h
        simp only [Option.some.injEq] at h
        subst h
        refine ⟨?_, rfl⟩
        have hn' : '{' ∉ n.data := hn
        have hd' : '{' ∉ d.data := hd
        have ha' : ∀ a ∈ as, '{' ∉ a.data := ha
        simp only [setup, formatStr_no_brace n e.config hn',
          formatStr_no_brace d e.config hd',
          formatArgs_no_brace as e.config ha', Option.some.injEq]
        by_cases hep : e.processIdentifier = ""
        · simp [hep]
        · simp [hep]

/-- Witness for C8: running `setup()` twice on the
`setupBasicExecutable` fixture reproduces the first result and keeps
`config` intact. -/
theorem setup_second_call_witness :
    setup { name := "testExecutable",
            description := "Basic executable for testing",
            args := ["execTest", "arg1", "arg2", "testworld"],
            config := [("hello", "world"), ("label", "test")],
            processIdentifier := "execTest arg1 arg2 testworld",
            supervisord := false } =
      some { name := "testExecutable",
             description := "Basic executable for testing",
             args := ["execTest", "arg1", "arg2", "testworld"],
             config := [("hello", "world"), ("label", "test")],
             processIdentifier := "execTest arg1 arg2 testworld",
             supervisord := false } ∧
    ({ name := "testExecutable",
       description := "Basic executable for testing",
       args := ["execTest", "arg1", "arg2", "testworld"],
       config := [("hello", "world"), ("label", "test")],
       processIdentifier := "execTest arg1 arg2 testworld",
       supervisord := false } : executable).config =
      basicTestExecutable.config :=
  setup_second_call basicTestExecutable _ (by decide) (by decide)
    (by decide) (by decide)

/-! ## Claims about `killExistingProcess` and `getProcessPID` -/

/-- Evaluation of `killExistingProcess` on a non-empty initial PID
list. -/
theorem killExistingProcess_ne (initial after : List Nat)
    (hi : ¬ initial = []) :
    killExistingProcess initial after =
      { signalsSent := initial.map (fun p => (p, UnixSignal.sigint)),
        result :=
          if initial.filter (fun p => after.contains p) = [] then
            DResult.ok initial.length
          else DResult.error (DeployError.runtimeError
            ("Requested to kill existing processes, but " ++
              ("found PIDs " ++
                pidListString (initial.filter (fun p => after.contains p)) ++
                " after killing the processes."))) } := by
  simp only [killExistingProcess, if_neg hi]

/-- C1: `killExistingProcess` sends exactly one `SIGINT` to each PID of
the initial `getProcessPID()` read (and never any other signal), returns
the count of PIDs signalled when no initial PID survives the post-signal
re-check, raises a `RuntimeError` whose message contains
`"found PIDs [<pids>] after killing the processes."` exactly when some
initial PID is still present in the re-check, and is a no-op returning `0`
on an empty initial list. -/
theorem killExistingProcess_spec (initial after : List Nat) :
    (killExistingProcess [] after =
      { signalsSent := [], result := DResult.ok 0 }) ∧
    ((killExistingProcess initial after).signalsSent =
      if initial = [] then []
      else initial.map (fun p => (p, UnixSignal.sigint))) ∧
    (initial.filter (fun p => after.contains p) = [] →
      (killExistingProcess initial after).result =
        DResult.ok (if initial = [] then 0 else initial.length)) ∧
    (∀ p, p ∈ initial → p ∈ after →
      (killExistingProcess initial after).result =
        DResult.error (DeployError.runtimeError
          ("Requested to kill existing processes, but " ++
            ("found PIDs " ++
              pidListString (initial.filter (fun q => after.contains q)) ++
              " after killing the processes."))) ∧
      strContains
        ("Requested to kill existing processes, but " ++
          ("found PIDs " ++
            pidListString (initial.filter (fun q => after.contains q)) ++
            " after killing the processes."))
        ("found PIDs " ++
          pidListString (initial.filter (fun q => after.contains q)) ++
          " after killing the processes.")) := by
  refine ⟨by simp [killExistingProcess], ?_, ?_, ?_⟩
  · by_cases hi : initial = []
    · simp [killExistingProcess, hi]
    · rw [killExistingProcess_ne initial after hi]
      rw [if_neg hi]
  · intro hsur
    by_cases hi : initial = []
    · simp [killExistingProcess, hi]
    · rw [killExistingProcess_ne initial after hi]
      dsimp only
      rw [if_pos hsur, if_neg hi]
  · intro p hp hpa
    have hi : ¬ initial = [] := fun h0 => by
      rw [h0] at hp; exact (List.not_mem_nil p) hp
    have hmem : p ∈ initial.filter (fun q => after.contains q) :=
      List.mem_filter.mpr ⟨hp, List.elem_iff.mpr hpa⟩
    have hsur : ¬ initial.filter (fun q => after.contains q) = [] :=
      fun h0 => by rw [h0] at hmem; exact (List.not_mem_nil p) hmem
    constructor
    · rw [killExistingProcess_ne initial after hi]
      dsimp only
      rw [if_neg hsur]
    · show (("found PIDs " ++
          pidListString (initial.filter (fun q => after.contains q)) ++
          " after killing the processes.") : String).data <:+: _
      rw [String.data_append]
      exact List.IsSuffix.isInfix ⟨_, rfl⟩

/-- Witness for C1: the three scenarios of `testKillingProcess` and
`testFailedKillingProces` — no PIDs, one PID successfully interrupted, and
one PID surviving the re-check. -/
theorem killExistingProcess_spec_witness :
    killExistingProcess [] [] =
      { signalsSent := [], result := DResult.ok 0 } ∧
    killExistingProcess [1234567] [] =
      { signalsSent := [(1234567, UnixSignal.sigint)],
        result := DResult.ok 1 } ∧
    (killExistingProcess [1234567] [1234567]).result =
      DResult.error (DeployError.runtimeError
        ("Requested to kill existing processes, but " ++
          ("found PIDs [1234567] after killing the processes."))) ∧
    strContains
      "Requested to kill existing processes, but found PIDs [1234567] after killing the processes."
      "found PIDs [1234567] after killing the processes." := by
  refine ⟨(killExistingProcess_spec [] []).1, by decide, ?_, by decide⟩
  have h := ((killExistingProcess_spec [1234567] [1234567]).2.2.2
    1234567 (by decide) (by decide)).1
  rw [h]
  decide

/-- C2 counterexample: with exit code 0 and stdout `"1234\n5678\n"`,
`getProcessPID()` does not return `[1234, 5678]` — the test
(`test_deploy.py:141-157`) expects the ambiguity `ValueError` to be
raised by `getProcessPID` itself, not at the caller level. -/
theorem getProcessPID_not_caller_level :
    getProcessPID (SubprocessResult.output "1234\n5678\n") ≠
      DResult.ok [1234, 5678] := by decide

/-- C2 (amended): when the listing command exits 0 and more than one PID
is parsed from its stdout, `getProcessPID()` itself raises the ambiguity
`ValueError`, whose message contains `"Multiple PIDs"`; no PID list is
returned. -/
theorem getProcessPID_ambiguity (s : String)
    (h : 1 < (parsePids s).length) :
    getProcessPID (SubprocessResult.output s) =
      DResult.error (DeployError.valueError
        ("Multiple PIDs " ++ pidListString (parsePids s) ++
          " found for the process.")) ∧
    strContains
      ("Multiple PIDs " ++ pidListString (parsePids s) ++
        " found for the process.")
      "Multiple PIDs" := by
  constructor
  · simp only [getProcessPID]
    rw [if_pos h]
  · show (("Multiple PIDs") : String).data <:+: _
    have hlit : (("Multiple PIDs ") : String).data =
        (("Multiple PIDs") : String).data ++ ((" ") : String).data := by
      decide
    rw [String.data_append, String.data_append, hlit, List.append_assoc,
      List.append_assoc]
    exact List.IsPrefix.isInfix ⟨_, rfl⟩

/-- Witness for C2 (amended): the `testGetProcessPIDFailure` input
`"1234\n5678\n"`. -/
theorem getProcessPID_ambiguity_witness :
    getProcessPID (SubprocessResult.output "1234\n5678\n") =
      DResult.error (DeployError.valueError
        "Multiple PIDs [1234, 5678] found for the process.") ∧
    strContains "Multiple PIDs [1234, 5678] found for the process."
      "Multiple PIDs" := by
  have h := getProcessPID_ambiguity "1234\n5678\n" (by decide)
  exact ⟨h.1.trans (by decide), by decide⟩

/-- C3 counterexample: stdout `"1234\n5678\n"` with exit code 0 parses to
`[1234, 5678]`, yet `getProcessPID()` does not return that parsed list
(it raises the ambiguity error instead), so the unrestricted
"returns the parsed stdout on exit 0" clause fails. -/
theorem getProcessPID_parse_counterexample :
    parsePids "1234\n5678\n" = [1234, 5678] ∧
    getProcessPID (SubprocessResult.output "1234\n5678\n") ≠
      DResult.ok (parsePids "1234\n5678\n") := by decide

/-- C3 (amended): `getProcessPID()` returns the empty list when the
listing command exits with code 1 (a normal "no match", not a failure);
returns the newline-delimited stdout parsed into integer PIDs when the
command exits 0 and fewer than two PIDs are parsed; and re-raises the
listing command's `CalledProcessError` unchanged for any other exit
code. -/
theorem getProcessPID_exit_codes :
    (getProcessPID (SubprocessResult.failed 1) = DResult.ok []) ∧
    (∀ s : String, (parsePids s).length ≤ 1 →
      getProcessPID (SubprocessResult.output s) =
        DResult.ok (parsePids s)) ∧
    (∀ rc : Int, rc ≠ 1 →
      getProcessPID (SubprocessResult.failed rc) =
        DResult.error (DeployError.calledProcessError rc)) := by
  refine ⟨rfl, ?_, ?_⟩
  · intro s h
    simp only [getProcessPID]
    rw [if_neg (by omega)]
  · intro rc h
    simp [getProcessPID, h]

/-- Witness for C3 (amended): the `testGetProcessPID` and
`testGetProcessPIDSubprocessFailure` inputs — exit 1, stdout `"1234\n"`,
and exit 3. -/
theorem getProcessPID_exit_codes_witness :
    getProcessPID (SubprocessResult.failed 1) = DResult.ok [] ∧
    getProcessPID (SubprocessResult.output "1234\n") =
      DResult.ok [1234] ∧
    getProcessPID (SubprocessResult.failed 3) =
      DResult.error (DeployError.calledProcessError 3) :=
  ⟨getProcessPID_exit_codes.1,
   (getProcessPID_exit_codes.2.1 "1234\n" (by decide)).trans (by decide),
   getProcessPID_exit_codes.2.2 3 (by decide)⟩

/-! ## Claims about the config merge -/

/-- Association lookup distributes over list append. -/
theorem lookupAssoc_append {α : Type} (l₁ l₂ : List (String × α))
    (k : String) :
    lookupAssoc (l₁ ++ l₂) k =
      match lookupAssoc l₁ k with
      | some v => some v
      | none => lookupAssoc l₂ k := by
  induction l₁ with
  | nil => rfl
  | cons p rest ih =>
    by_cases hp : p.1 = k
    · simp [lookupAssoc, hp]
    · simp [lookupAssoc, hp, ih]

/-- Lookup in the value-updated copy of `base`: present keys take the
override's value when one exists. -/
theorem lookupAssoc_mapped (base overrides : List (String × YVal))
    (k : String) :
    lookupAssoc (base.map (fun p =>
        match lookupAssoc overrides p.1 with
        | some v => (p.1, v)
        | none => p)) k =
      match lookupAssoc base k with
      | none => none
      | some w =>
        match lookupAssoc overrides k with
        | some v => some v
        | none => some w := by
  induction base with
  | nil => rfl
  | cons p rest ih =>
    rcases p with ⟨pk, pv⟩
    by_cases hp : pk = k
    · subst hp
      cases ho : lookupAssoc overrides pk
      · simp [lookupAssoc, ho]
      · simp [lookupAssoc, ho]
    · cases ho : lookupAssoc overrides pk
      · simp [lookupAssoc, ho, hp, ih]
      · simp [lookupAssoc, ho, hp, ih]

/-- Filtering by a key-only predicate preserves lookups of keys the
predicate accepts. -/
theorem lookupAssoc_filter_key (l : List (String × YVal))
    (pred : String → Bool) (k : String) (hk : pred k = true) :
    lookupAssoc (l.filter (fun q => pred q.1)) k = lookupAssoc l k := by
  induction l with
  | nil => rfl
  | cons p rest ih =>
    by_cases hpred : pred p.1
    · by_cases hp : p.1 = k <;>
        simp [List.filter_cons, lookupAssoc, hpred, hp, hk, ih]
    · have hp : ¬ p.1 = k := fun h => hpred (h ▸ hk)
      simp [List.filter_cons, lookupAssoc, hpred, hp, ih]

/-- C5: the config-merge step of `overwatchExecutable.setup()` writes the
existing file's mapping (empty when the file is absent) updated with the
overrides: an absent file yields exactly the overrides, every overridden
key reads back as the override's value (overlapping keys replaced, new
keys added), and every key outside the override set keeps its previous
value. -/
theorem writeCustomConfig_merge :
    (∀ overrides : List (String × YVal),
      writeCustomConfig none overrides = overrides) ∧
    (∀ (existing overrides : List (String × YVal)) (k : String) (v : YVal),
      lookupAssoc overrides k = some v →
      lookupAssoc (writeCustomConfig (some existing) overrides) k =
        some v) ∧
    (∀ (existing overrides : List (String × YVal)) (k : String),
      lookupAssoc overrides k = none →
      lookupAssoc (writeCustomConfig (some existing) overrides) k =
        lookupAssoc existing k) := by
  refine ⟨?_, ?_, ?_⟩
  · intro ov
    simp [writeCustomConfig, updateMap, lookupAssoc]
  · intro base ov k v hv
    simp only [writeCustomConfig, updateMap, Option.getD_some]
    rw [lookupAssoc_append, lookupAssoc_mapped]
    cases hb : lookupAssoc base k
    · simp only
      rw [lookupAssoc_filter_key ov (fun s => (lookupAssoc base s).isNone)
        k (by simp [hb])]
      exact hv
    · simp [hv]
  · intro base ov k hv
    simp only [writeCustomConfig, updateMap, Option.getD_some]
    rw [lookupAssoc_append, lookupAssoc_mapped]
    cases hb : lookupAssoc base k
    · simp only
      rw [lookupAssoc_filter_key ov (fun s => (lookupAssoc base s).isNone)
        k (by simp [hb])]
      rw [hv]
    · simp [hv]

/-- Witness for C5: the three `testWriteCustomOverwatchConfig` scenarios —
config from scratch, appending to non-overlapping values, and updating an
overlapping value. -/
theorem writeCustomConfig_merge_witness :
    writeCustomConfig none
        [("opt1", YVal.strset ["a", "b"]), ("opt2", YVal.bool true)] =
      [("opt1", YVal.strset ["a", "b"]), ("opt2", YVal.bool true)] ∧
    lookupAssoc (writeCustomConfig (some [("opt2", YVal.bool false)])
        [("opt1", YVal.strset ["a", "b"]), ("opt2", YVal.bool true)])
        "opt2" = some (YVal.bool true) ∧
    lookupAssoc (writeCustomConfig (some [("existingOption", YVal.bool true)])
        [("opt1", YVal.strset ["a", "b"]), ("opt2", YVal.bool true)])
        "existingOption" = some (YVal.bool true) :=
  ⟨writeCustomConfig_merge.1 _,
   writeCustomConfig_merge.2.1 _ _ "opt2" (YVal.bool true) (by decide),
   (writeCustomConfig_merge.2.2 _ _ "existingOption" (by decide)).trans
     (by decide)⟩

/-! ## Claims about process launch, the registry and YAML loading -/

/-- C6: in direct mode (`supervisord = false`) `startProcessWithLog`
opens only `"<name>.log"` in write mode, spawns the resolved `args` with
stdout and stderr redirected to that log, and returns the process handle;
in supervisor mode (`supervisord = true`) it opens only
`"supervisord.conf"` in append mode, performs exactly one structured
stanza write, and returns no process handle. -/
theorem startProcessWithLog_modes (e : executable) :
    ((startProcessWithLog { e with supervisord := false }).opens =
      [(e.name ++ ".log", FileMode.write)]) ∧
    ((startProcessWithLog { e with supervisord := false }).spawned =
      some { args := e.args, stdoutLog := e.name ++ ".log",
             stderrToStdout := true }) ∧
    ((startProcessWithLog { e with supervisord := false }).stanzas = []) ∧
    ((startProcessWithLog { e with supervisord := true }).opens =
      [("supervisord.conf", FileMode.append)]) ∧
    ((startProcessWithLog { e with supervisord := true }).stanzas =
      [{ programName := e.name, command := joinSpace e.args,
         logFile := e.name ++ ".log" }]) ∧
    ((startProcessWithLog { e with supervisord := true }).spawned =
      none) := by
  simp [startProcessWithLog]

/-- C7: `retrieveExecutable` returns the registered constructor for every
name present in the registry, and fails with a `KeyError` whose message is
`"Executable <name> is invalid."` for every absent name — never a
default. -/
theorem retrieveExecutable_spec (name : String) :
    (∀ c : ExecutableKind,
      lookupAssoc _available_executables name = some c →
      retrieveExecutable name = DResult.ok c) ∧
    (lookupAssoc _available_executables name = none →
      retrieveExecutable name = DResult.error
        (DeployError.keyError ("Executable " ++ name ++ " is invalid."))) := by
  constructor
  · intro c hc
    simp [retrieveExecutable, hc]
  · intro hn
    simp [retrieveExecutable, hn]

/-- Witness for C7: a registered name resolves to its entry and the
unregistered name `"helloWorld"` fails with the exact message of
`testRetrieveExecutable`. -/
theorem retrieveExecutable_spec_witness :
    retrieveExecutable "dataTransfer" =
      DResult.ok ExecutableKind.dataTransfer ∧
    retrieveExecutable "helloWorld" = DResult.error
      (DeployError.keyError "Executable helloWorld is invalid.") :=
  ⟨(retrieveExecutable_spec "dataTransfer").1 ExecutableKind.dataTransfer
     (by decide),
   ((retrieveExecutable_spec "helloWorld").2 (by decide)).trans (by decide)⟩

/-- C10: `"zodb"` is a registered executable type:
`retrieveExecutable "zodb"` succeeds and returns the registry entry
under that name, exactly as `testRetrieveExecutable` exercises. -/
theorem zodb_registered :
    retrieveExecutable "zodb" = DResult.ok ExecutableKind.zodb ∧
    lookupAssoc _available_executables "zodb" =
      some ExecutableKind.zodb := by decide

/-! ## Claims about the `!expandVars` YAML loader -/

/-- Expansion is the identity on dollar-free text. -/
theorem expandGo_no_dollar (env : List (String × String)) :
    ∀ l : List Char, '$' ∉ l → expandGo env none l = l := by
  intro l h
  induction l with
  | nil => rfl
  | cons c rest ih =>
    have hc : ¬ c = '$' := fun hc => h (hc ▸ List.mem_cons_self c rest)
    have hrest : '$' ∉ rest := fun hm => h (List.mem_cons_of_mem c hm)
    simp [expandGo, hc, ih hrest]

/-- Consuming a run of identifier characters accumulates them onto the
pending variable name. -/
theorem expandGo_ident (env : List (String × String)) (k : List Char)
    (hk : ∀ c ∈ k, isIdentChar c = true) :
    ∀ acc : List Char,
      expandGo env (some acc) k = finishVar env (k.reverse ++ acc) := by
  induction k with
  | nil => intro acc; simp [expandGo]
  | cons c k' ih =>
    intro acc
    have hc := hk c (List.mem_cons_self c k')
    have hk' : ∀ x ∈ k', isIdentChar x = true :=
      fun x hx => hk x (List.mem_cons_of_mem c hx)
    rw [show expandGo env (some acc) (c :: k') =
        expandGo env (some (c :: acc)) k' from by simp [expandGo, hc]]
    rw [ih hk' (c :: acc), List.reverse_cons, List.append_assoc]
    rfl

/-- A dollar-free literal prefix passes through expansion unchanged and
expansion resumes on the remainder. -/
theorem expandGo_append_lit (env : List (String × String))
    (pre l : List Char) (h : '$' ∉ pre) :
    expandGo env none (pre ++ l) = pre ++ expandGo env none l := by
  induction pre with
  | nil => simp
  | cons c pre' ih =>
    have hc : ¬ c = '$' := fun hc => h (hc ▸ List.mem_cons_self c pre')
    have hpre : '$' ∉ pre' := fun hm => h (List.mem_cons_of_mem c hm)
    rw [List.cons_append,
      show expandGo env none (c :: (pre' ++ l)) =
        c :: expandGo env none (pre' ++ l) from by simp [expandGo, hc],
      ih hpre, List.cons_append]

/-- A variable name ending at a non-identifier character resolves there,
and expansion resumes in literal mode on that character — also when it is
a further `$`. -/
theorem expandGo_var_step (env : List (String × String)) (name : List Char)
    (hname : ∀ x ∈ name, isIdentChar x = true) (c : Char)
    (rest : List Char) (hc : isIdentChar c = false) :
    ∀ acc : List Char,
      expandGo env (some acc) (name ++ c :: rest) =
        finishVar env (name.reverse ++ acc) ++
          expandGo env none (c :: rest) := by
  induction name with
  | nil =>
    intro acc
    by_cases hd : c = '$'
    · subst hd
      simp [expandGo, hc]
    · simp [expandGo, hc, hd]
  | cons a name' ih =>
    intro acc
    have ha := hname a (List.mem_cons_self a name')
    have hname' : ∀ x ∈ name', isIdentChar x = true :=
      fun x hx => hname x (List.mem_cons_of_mem a hx)
    rw [List.cons_append,
      show expandGo env (some acc) (a :: (name' ++ c :: rest)) =
        expandGo env (some (a :: acc)) (name' ++ c :: rest) from by
          simp [expandGo, ha],
      ih hname' (a :: acc), List.reverse_cons, List.append_assoc]
    rfl

/-- A finished non-empty variable name bound in the environment resolves
to its value. -/
theorem finishVar_lookup (env : List (String × String)) (name : List Char)
    (v : String) (hne : name ≠ [])
    (hv : lookupAssoc env (String.mk name) = some v) :
    finishVar env name.reverse = v.data := by
  cases hrev : name.reverse with
  | nil => exact absurd (List.reverse_eq_nil_iff.mp hrev) hne
  | cons c cs =>
    have hb : (c :: cs).reverse = name := by
      rw [← hrev, List.reverse_reverse]
    simp [finishVar, hb, hv]

/-- C9: loading with the deploy module's loader leaves untagged values —
including strings containing `$` — verbatim, reproduces dumped non-tagged
values unchanged on reload, leaves `!expandVars` scalars without any `$`
untouched, and replaces each embedded `$VARNAME` reference in an
`!expandVars` scalar by the environment's value of `VARNAME`: for any
dollar-free text `pre` before the reference, bound identifier name, and
continuation `rest` beginning at a non-identifier character (or ending the
scalar), the reference becomes the environment value and expansion resumes
on `rest` — so multiple references in one scalar resolve one after the
other. -/
theorem yaml_expandVars_spec :
    (∀ (env : List (String × String)) (v : YVal),
      loadScalar env (YamlScalar.plain v) = v) ∧
    (∀ (env : List (String × String)) (v : YVal),
      loadScalar env (dumpScalar v) = v) ∧
    (∀ (env : List (String × String)) (s : String), '$' ∉ s.data →
      loadScalar env (YamlScalar.expandVarsTag s) = YVal.str s) ∧
    (∀ (env : List (String × String)) (pre name rest : List Char)
        (v : String),
      '$' ∉ pre → name ≠ [] → (∀ c ∈ name, isIdentChar c = true) →
      (rest = [] ∨
        ∃ c rest', rest = c :: rest' ∧ isIdentChar c = false) →
      lookupAssoc env (String.mk name) = some v →
      loadScalar env (YamlScalar.expandVarsTag
          (String.mk (pre ++ '$' :: (name ++ rest)))) =
        YVal.str (String.mk (pre ++ (v.data ++ expandGo env none rest)))) := by
  refine ⟨fun env v => rfl, fun env v => rfl, ?_, ?_⟩
  · intro env s h
    simp [loadScalar, expandVars, expandGo_no_dollar env s.data h]
  · intro env pre name rest v hpre hne hident hbound hv
    have key : expandGo env none (pre ++ '$' :: (name ++ rest)) =
        pre ++ (v.data ++ expandGo env none rest) := by
      rw [expandGo_append_lit env pre _ hpre]
      rw [show expandGo env none ('$' :: (name ++ rest)) =
          expandGo env (some []) (name ++ rest) from by simp [expandGo]]
      rcases hbound with hemp | ⟨c, rest', hrest, hc⟩
      · subst hemp
        rw [List.append_nil, expandGo_ident env name hident [],
          List.append_nil, finishVar_lookup env name v hne hv]
        simp [expandGo]
      · subst hrest
        rw [expandGo_var_step env name hident c rest' hc [],
          List.append_nil, finishVar_lookup env name v hne hv]
    show YVal.str
        (String.mk (expandGo env none (pre ++ '$' :: (name ++ rest)))) = _
    rw [key]

/-- Witness for C9: the `testExpandEnvironmentVars` scenarios plus
embedded references — a whole-scalar `$HOME`, a reference followed by more
text (`$HOME/subdir`), two references embedded in one scalar,
an `!expandVars` scalar without a variable, an untagged `$`-containing
string kept verbatim, and a dumped value reloading unchanged. -/
theorem yaml_expandVars_spec_witness :
    loadScalar [("HOME", "/home/overwatch")]
      (YamlScalar.expandVarsTag "$HOME") = YVal.str "/home/overwatch" ∧
    loadScalar [("HOME", "/home/overwatch")]
      (YamlScalar.expandVarsTag "$HOME/subdir") =
      YVal.str "/home/overwatch/subdir" ∧
    loadScalar [("HOME", "/home/overwatch"), ("USER", "overwatch")]
      (YamlScalar.expandVarsTag "dir $HOME of $USER") =
      YVal.str "dir /home/overwatch of overwatch" ∧
    loadScalar [("HOME", "/home/overwatch")]
      (YamlScalar.expandVarsTag "Hello world") = YVal.str "Hello world" ∧
    loadScalar [("HOME", "/home/overwatch")]
      (YamlScalar.plain (YVal.str "$ Hello World")) =
      YVal.str "$ Hello World" ∧
    loadScalar [("HOME", "/home/overwatch")]
      (dumpScalar (YVal.nat 3)) = YVal.nat 3 := by
  refine ⟨?_, ?_, ?_, ?_, ?_, ?_⟩
  · have h := yaml_expandVars_spec.2.2.2 [("HOME", "/home/overwatch")]
      [] ("HOME".data) [] "/home/overwatch" (by decide) (by decide)
      (by decide) (Or.inl rfl) (by decide)
    have e : String.mk ([] ++ '$' :: ("HOME".data ++ [])) = "$HOME" := by
      decide
    rw [e] at h
    exact h.trans (by decide)
  · have h := yaml_expandVars_spec.2.2.2 [("HOME", "/home/overwatch")]
      [] ("HOME".data) ("/subdir".data) "/home/overwatch" (by decide)
      (by decide) (by decide)
      (Or.inr ⟨'/', "subdir".data, by decide, by decide⟩) (by decide)
    have e : String.mk ([] ++ '$' :: ("HOME".data ++ "/subdir".data)) =
        "$HOME/subdir" := by decide
    rw [e] at h
    exact h.trans (by decide)
  · have h := yaml_expandVars_spec.2.2.2
      [("HOME", "/home/overwatch"), ("USER", "overwatch")]
      ("dir ".data) ("HOME".data) (" of $USER".data) "/home/overwatch"
      (by decide) (by decide) (by decide)
      (Or.inr ⟨' ', "of $USER".data, by decide, by decide⟩) (by decide)
    have e : String.mk
        ("dir ".data ++ '$' :: ("HOME".data ++ " of $USER".data)) =
        "dir $HOME of $USER" := by decide
    rw [e] at h
    exact h.trans (by decide)
  · exact yaml_expandVars_spec.2.2.1 [("HOME", "/home/overwatch")]
      "Hello world" (by decide)
  · exact yaml_expandVars_spec.1 _ _
  · exact yaml_expandVars_spec.2.1 _ _
